import Mathlib

/-!
# ibis-datasette: verification of the spec against a shallow embedding

The repository ships only documentation, packaging and an example notebook;
the compiler / execution-client implementation itself is not under `src/`.
Following the spec (sections 3 and 4), the data model and the operations are
modelled here from the spec's words: the canonical type system and type
mapper (spec 4.3), the SQL compiler over relational-algebra trees (spec 4.1),
the paginated remote-execution client (spec 4.2), and the connection facade
described in the README.
-/

namespace IbisDatasette

/-- Modelled from the spec: the core's canonical type system
(integer, real, text, boolean, timestamp, binary, null/any). -/
inductive SqlType where
  | integer
  | real
  | text
  | boolean
  | timestamp
  | binary
  | nullT
deriving DecidableEq, Repr

/-- Modelled from the spec: a JSON scalar as delivered by the remote query
endpoint (null, number, string, boolean).  Numeric scalars are modelled by
their integer value; fractional literals (floating point) are out of scope
of the shallow embedding. -/
inductive Json where
  | null
  | num (n : Int)
  | str (s : String)
  | jbool (b : Bool)
deriving DecidableEq, Repr

/-- Modelled from the spec: a typed value of a MaterializedTable cell. -/
inductive Value where
  | int (n : Int)
  | realV (n : Int)
  | text (s : String)
  | bool (b : Bool)
  | timeV (s : String)
  | blob (s : String)
  | null
deriving DecidableEq, Repr

/-- Lower-case a string character by character. -/
def lowerStr (s : String) : String :=
  String.mk (s.data.map Char.toLower)

/-- Executable check that `pat` occurs as a contiguous sublist of `l`. -/
def hasSub (pat : List Char) : List Char → Bool
  | [] => pat.isEmpty
  | c :: rest => pat.isPrefixOf (c :: rest) || hasSub pat rest

/-- Case-insensitive keyword test on a declared-type string. -/
def containsTok (s tok : String) : Bool :=
  hasSub tok.data (lowerStr s).data

/-- Modelled from the spec (4.3, Type Mapper): prefix/keyword based mapping
from the remote engine's free-form declared-type strings to canonical types.
Tokens containing "int" map to integer; "real"/"float"/"double"/"numeric" to
real; "text"/"char"/"clob" or empty/absent to text; "bool" to boolean;
"blob" to binary; "date"/"time" to timestamp; text is the default for every
unknown declaration. -/
def declaredTypeToCanonical (s : String) : SqlType :=
  if containsTok s "int" then .integer
  else if containsTok s "real" || containsTok s "float" || containsTok s "double"
      || containsTok s "numeric" then .real
  else if containsTok s "text" || containsTok s "char" || containsTok s "clob"
      || s = "" then .text
  else if containsTok s "bool" then .boolean
  else if containsTok s "blob" then .binary
  else if containsTok s "date" || containsTok s "time" then .timestamp
  else .text

/-- Modelled from the spec (7, error taxonomy): execution-time errors. -/
inductive ExecErr where
  | remoteFailure (status : Nat) (body : String)
  | protocolViolation
  | schemaMismatch
  | incompleteResult
  | typeCoercionFailure
deriving DecidableEq, Repr

/-- Digits-only string to number accumulator, used by the clean-parse check. -/
def digitsToNat (acc : Nat) : List Char → Option Nat
  | [] => some acc
  | c :: rest =>
    if c.isDigit then digitsToNat (acc * 10 + (c.toNat - 48)) rest
    else none

/-- Modelled from the spec: clean parse of a string as an integer (optional
sign followed by at least one digit, nothing else). -/
def parseIntStr (s : String) : Option Int :=
  match s.data with
  | [] => none
  | c :: rest =>
    if c = '-' then
      match rest with
      | [] => none
      | _ => (digitsToNat 0 rest).map (fun n => -(n : Int))
    else (digitsToNat 0 (c :: rest)).map (fun n => (n : Int))

/-- Modelled from the spec (4.3): `decodeValue(JSONScalar, Type)`.
A JSON number in a text-typed column passes through as text via string
conversion; a JSON string in a numeric column is accepted only if it parses
cleanly as a number, otherwise TypeCoercionFailure; a numeric-looking string
in a non-numeric column is never coerced to a number. -/
def decodeValue (j : Json) (t : SqlType) : Except ExecErr Value :=
  match j, t with
  | .null, _ => .ok .null
  | .num n, .integer => .ok (.int n)
  | .num n, .real => .ok (.realV n)
  | .num n, .text => .ok (.text (toString n))
  | .num n, .boolean =>
    if n = 0 then .ok (.bool false)
    else if n = 1 then .ok (.bool true)
    else .error .typeCoercionFailure
  | .num _, _ => .error .typeCoercionFailure
  | .str s, .integer =>
    match parseIntStr s with
    | some n => .ok (.int n)
    | none => .error .typeCoercionFailure
  | .str s, .real =>
    match parseIntStr s with
    | some n => .ok (.realV n)
    | none => .error .typeCoercionFailure
  | .str s, .text => .ok (.text s)
  | .str s, .timestamp => .ok (.timeV s)
  | .str s, .binary => .ok (.blob s)
  | .str s, .nullT => .ok (.text s)
  | .str _, .boolean => .error .typeCoercionFailure
  | .jbool b, .boolean => .ok (.bool b)
  | .jbool b, .text => .ok (.text (if b then "1" else "0"))
  | .jbool b, .integer => .ok (.int (if b then 1 else 0))
  | .jbool _, _ => .error .typeCoercionFailure

/-- Decode one row against the output types; a row whose width differs from
the output column count is malformed (ProtocolViolation), so no partial row
is ever produced. -/
def decodeRow : List Json → List SqlType → Except ExecErr (List Value)
  | [], [] => .ok []
  | j :: r, t :: ts =>
    match decodeValue j t with
    | .error e => .error e
    | .ok v =>
      match decodeRow r ts with
      | .error e => .error e
      | .ok vs => .ok (v :: vs)
  | _, _ => .error .protocolViolation

/-- Decode all rows of a page in order. -/
def decodeRows : List (List Json) → List SqlType → Except ExecErr (List (List Value))
  | [], _ => .ok []
  | r :: rs, ts =>
    match decodeRow r ts with
    | .error e => .error e
    | .ok v =>
      match decodeRows rs ts with
      | .error e => .error e
      | .ok vs => .ok (v :: vs)

/-- Modelled from the spec (3, data model): CompiledQuery = (SQL text,
ordered output column names, output Types). -/
structure CompiledQuery where
  sql : String
  names : List String
  types : List SqlType
deriving DecidableEq, Repr

/-- Modelled from the spec (3): one ResultPage of the paginated protocol:
column name list, row list of JSON scalars, optional continuation token. -/
structure Page where
  columns : List String
  rows : List (List Json)
  next : Option String
deriving DecidableEq, Repr

/-- Modelled from the spec (4.2): one HTTP response as the client sees it:
a successful JSON page, a non-2xx status with a body, or a transport
failure. -/
inductive ServerResp where
  | ok (p : Page)
  | httpError (status : Nat) (body : String)
  | transportFail
deriving DecidableEq, Repr

/-- Modelled from the spec (4.2, Remote Execution Client): the pagination
loop.  The server's responses are consumed strictly sequentially; each ok
page has its column list validated against the CompiledQuery (mismatch is
SchemaMismatch), its rows decoded in order, and its rows appended before the
next page's; the loop stops at the first page carrying no continuation
token; a non-2xx status is RemoteFailure and a transport failure (or a
promised page that never arrives) mid-pagination is IncompleteResult.
Returning `Except` makes the result all-or-nothing: no partial table. -/
def executeFrom (cq : CompiledQuery) : List ServerResp → Except ExecErr (List (List Value))
  | [] => .error .incompleteResult
  | .httpError status body :: _ => .error (.remoteFailure status body)
  | .transportFail :: _ => .error .incompleteResult
  | .ok p :: rest =>
    if p.columns = cq.names then
      match decodeRows p.rows cq.types with
      | .error e => .error e
      | .ok vs =>
        match p.next with
        | none => .ok vs
        | some _ =>
          match executeFrom cq rest with
          | .error e => .error e
          | .ok tail => .ok (vs ++ tail)
    else .error .schemaMismatch

/-- How many HTTP requests the pagination loop issues against a given
response sequence (one per response consumed). -/
def requestsUsed (cq : CompiledQuery) : List ServerResp → Nat
  | [] => 0
  | .httpError _ _ :: _ => 1
  | .transportFail :: _ => 1
  | .ok p :: rest =>
    if p.columns = cq.names then
      match decodeRows p.rows cq.types with
      | .error _ => 1
      | .ok _ =>
        match p.next with
        | none => 1
        | some _ => 1 + requestsUsed cq rest
    else 1

/-- Build a server that splits the given page contents across sequential
pages: every page but the last carries a continuation token, the last
carries none. -/
def mkPages (cols : List String) : List (List (List Json)) → List ServerResp
  | [] => []
  | [rs] => [.ok ⟨cols, rs, none⟩]
  | rs :: rest => .ok ⟨cols, rs, some "_next"⟩ :: mkPages cols rest

/-- Modelled from the spec (7): compile-time errors.  With the modelled node
set every operator has a dialect mapping, so the reachable variant is
UnknownColumn. -/
inductive CompileError where
  | unknownColumn (name : String)
deriving DecidableEq, Repr

/-- Modelled from the spec (4.1): scalar literals. -/
inductive Lit where
  | intL (i : Int)
  | strL (s : String)
  | nullL
  | boolL (b : Bool)
deriving DecidableEq, Repr

/-- Modelled from the spec (4.1): binary operators (arithmetic, comparison,
boolean connectives). -/
inductive BinOp where
  | eq
  | ne
  | lt
  | le
  | add
  | sub
  | mul
  | andB
  | orB
deriving DecidableEq, Repr

/-- Modelled from the spec (4.1): scalar expressions: literals, column
references, binary operators and the `contains` string predicate. -/
inductive Expr where
  | col (name : String)
  | lit (l : Lit)
  | bin (op : BinOp) (a b : Expr)
  | strContains (a : Expr) (needle : String)
deriving DecidableEq, Repr

/-- Modelled from the spec (4.1): aggregate functions, including string
concatenation with a separator argument. -/
inductive AggFun where
  | count
  | sum
  | avg
  | minA
  | maxA
  | groupConcat (sep : String)
deriving DecidableEq, Repr

/-- An aggregate call: function plus optional argument column
(`none` stands for `count(*)`). -/
structure AggExpr where
  fn : AggFun
  arg : Option String
deriving DecidableEq, Repr

/-- Modelled from the spec (4.1): a sort key is a column with a direction,
or the dialect's random function. -/
inductive SortKey where
  | byCol (name : String) (desc : Bool)
  | byRandom
deriving DecidableEq, Repr

/-- Modelled from the spec (4.1): set-operation kinds. -/
inductive SetKind where
  | union
  | unionAll
  | intersect
  | exceptOp
deriving DecidableEq, Repr

/-- Modelled from the spec (3): the relational-algebra Expression Node tree:
Leaf-Table, Projection, Filter, Aggregate, Sort, Limit, SetOp. -/
inductive Node where
  | table (name : String) (schema : List (String × SqlType))
  | projection (parent : Node) (cols : List String)
  | filter (parent : Node) (pred : Expr)
  | aggregate (parent : Node) (keys : List String) (aggs : List (String × AggExpr))
  | sort (parent : Node) (keys : List SortKey)
  | limit (parent : Node) (n : Nat) (off : Option Nat)
  | setop (kind : SetKind) (a b : Node)
deriving DecidableEq, Repr

/-- Double-quote an identifier. -/
def quoteIdent (s : String) : String := "\"" ++ s ++ "\""

/-- The single-quote character, by code point. -/
def sqC : Char := Char.ofNat 39

/-- Escape embedded single quotes by doubling. -/
def escSq (s : String) : String :=
  String.mk (s.data.foldr (fun c acc => if c = sqC then sqC :: sqC :: acc else c :: acc) [])

/-- A single-quoted SQL string literal with embedded-quote escaping. -/
def sqStr (s : String) : String :=
  String.singleton sqC ++ escSq s ++ String.singleton sqC

/-- Escape LIKE wildcards in a substring-search needle. -/
def escLike (s : String) : String :=
  String.mk (s.data.foldr (fun c acc => if c = '%' || c = '_' then '\\' :: c :: acc else c :: acc) [])

/-- Join strings with a separator. -/
def joinSep (sep : String) : List String → String
  | [] => ""
  | [s] => s
  | s :: rest => s ++ sep ++ joinSep sep rest

/-- Literal encoding: numeric literals unquoted, string literals
single-quoted with escaping, NULL keyword, booleans as 0/1. -/
def renderLit : Lit → String
  | .intL i => toString i
  | .strL s => sqStr s
  | .nullL => "NULL"
  | .boolL b => if b then "1" else "0"

/-- Dialect spelling of a binary operator. -/
def opStr : BinOp → String
  | .eq => "="
  | .ne => "<>"
  | .lt => "<"
  | .le => "<="
  | .add => "+"
  | .sub => "-"
  | .mul => "*"
  | .andB => "AND"
  | .orB => "OR"

/-- Modelled from the spec (4.1): scalar-expression compilation against the
symbol table of in-scope column names; conservative parenthesization;
`contains` lowers to LIKE with a wildcard-escaped needle; an unresolved
column reference is CompileError(UnknownColumn). -/
def compileExpr (ns : List String) : Expr → Except CompileError String
  | .col n => if ns.contains n then .ok (quoteIdent n) else .error (.unknownColumn n)
  | .lit l => .ok (renderLit l)
  | .bin op a b =>
    match compileExpr ns a with
    | .error e => .error e
    | .ok sa =>
      match compileExpr ns b with
      | .error e => .error e
      | .ok sb => .ok ("(" ++ sa ++ " " ++ opStr op ++ " " ++ sb ++ ")")
  | .strContains a needle =>
    match compileExpr ns a with
    | .error e => .error e
    | .ok sa => .ok ("(" ++ sa ++ " LIKE " ++ sqStr ("%" ++ escLike needle ++ "%") ++ ")")

/-- Look a column up in parallel name/type lists; absence is
CompileError(UnknownColumn). -/
def lookupCol : List String → List SqlType → String → Except CompileError SqlType
  | [], _, cname => .error (.unknownColumn cname)
  | _ :: _, [], cname => .error (.unknownColumn cname)
  | n :: ns, t :: ts, cname => if n = cname then .ok t else lookupCol ns ts cname

/-- Resolve a list of column references, left to right. -/
def resolveAll (ns : List String) (ts : List SqlType) : List String → Except CompileError (List SqlType)
  | [] => .ok []
  | c :: cs =>
    match lookupCol ns ts c with
    | .error e => .error e
    | .ok t =>
      match resolveAll ns ts cs with
      | .error e => .error e
      | .ok us => .ok (t :: us)

/-- Result type of an aggregate over an argument of the given type. -/
def aggResultType : AggFun → SqlType → SqlType
  | .count, _ => .integer
  | .sum, t => t
  | .avg, _ => .real
  | .minA, t => t
  | .maxA, t => t
  | .groupConcat _, _ => .text

/-- Dialect call syntax for an aggregate function applied to an argument. -/
def aggCall : AggFun → String → String
  | .count, a => "COUNT(" ++ a ++ ")"
  | .sum, a => "SUM(" ++ a ++ ")"
  | .avg, a => "AVG(" ++ a ++ ")"
  | .minA, a => "MIN(" ++ a ++ ")"
  | .maxA, a => "MAX(" ++ a ++ ")"
  | .groupConcat sep, a => "group_concat(" ++ a ++ ", " ++ sqStr sep ++ ")"

/-- Compile one aggregate select item: rendered SQL and result type. -/
def compileAgg (ns : List String) (ts : List SqlType) (item : String × AggExpr) :
    Except CompileError (String × SqlType) :=
  match item.2.arg with
  | none => .ok (aggCall item.2.fn "*" ++ " AS " ++ quoteIdent item.1,
      aggResultType item.2.fn .integer)
  | some col =>
    match lookupCol ns ts col with
    | .error e => .error e
    | .ok t => .ok (aggCall item.2.fn (quoteIdent col) ++ " AS " ++ quoteIdent item.1,
        aggResultType item.2.fn t)

/-- Compile a list of aggregate select items. -/
def compileAggs (ns : List String) (ts : List SqlType) :
    List (String × AggExpr) → Except CompileError (List (String × SqlType))
  | [] => .ok []
  | item :: rest =>
    match compileAgg ns ts item with
    | .error e => .error e
    | .ok r =>
      match compileAggs ns ts rest with
      | .error e => .error e
      | .ok rs => .ok (r :: rs)

/-- Compile one sort key against the in-scope column names; the random
order lowers to the dialect's `random()` function. -/
def compileSortKey (ns : List String) : SortKey → Except CompileError String
  | .byCol n desc =>
    if ns.contains n then .ok (quoteIdent n ++ (if desc then " DESC" else " ASC"))
    else .error (.unknownColumn n)
  | .byRandom => .ok "random()"

/-- Compile a list of sort keys. -/
def compileSortKeys (ns : List String) : List SortKey → Except CompileError (List String)
  | [] => .ok []
  | k :: ks =>
    match compileSortKey ns k with
    | .error e => .error e
    | .ok s =>
      match compileSortKeys ns ks with
      | .error e => .error e
      | .ok ss => .ok (s :: ss)

/-- Whether a node is a Leaf-Table (its SQL can take a WHERE directly). -/
def isTable : Node → Bool
  | .table _ _ => true
  | _ => false

/-- Whether a node already carries a LIMIT clause at its top level. -/
def carriesLimit : Node → Bool
  | .limit _ _ _ => true
  | _ => false

/-- Dialect keyword of a set operation. -/
def setKindStr : SetKind → String
  | .union => "UNION"
  | .unionAll => "UNION ALL"
  | .intersect => "INTERSECT"
  | .exceptOp => "EXCEPT"

/-- Render a LIMIT/OFFSET clause. -/
def limitClause (n : Nat) (off : Option Nat) : String :=
  " LIMIT " ++ toString n ++ (match off with | none => "" | some o => " OFFSET " ++ toString o)

/-- Modelled from the spec (4.1, SQL Compiler): recursive bottom-up lowering
of an Expression Node tree to a CompiledQuery, threading the deterministic
alias counter.  Pure: no I/O is possible by construction.  Leaf-Table
lowers to a SELECT over the table with its schema as the symbol table;
Projection wraps the child in an aliased subquery; Filter appends WHERE,
wrapping non-leaf children in a subquery so a SELECT never gets two WHERE
clauses and a GROUP BY is never mutated in place; Aggregate always wraps
the child in a subquery and emits GROUP BY; Sort appends ORDER BY; Limit
appends LIMIT/OFFSET, wrapping the child in a subquery when it already
carries a LIMIT so the inner limit is preserved; SetOp parenthesizes both
children and takes its schema from the first. -/
def compile : Node → Nat → Except CompileError (CompiledQuery × Nat)
  | .table name schema, c =>
    .ok ({ sql := "SELECT * FROM " ++ quoteIdent name,
           names := schema.map Prod.fst, types := schema.map Prod.snd }, c)
  | .projection p cols, c =>
    match compile p c with
    | .error e => .error e
    | .ok (pcq, c1) =>
      match resolveAll pcq.names pcq.types cols with
      | .error e => .error e
      | .ok ts =>
        .ok ({ sql := "SELECT " ++ joinSep ", " (cols.map quoteIdent) ++ " FROM (" ++ pcq.sql
                 ++ ") AS t" ++ toString c1,
               names := cols, types := ts }, c1 + 1)
  | .filter p pred, c =>
    match compile p c with
    | .error e => .error e
    | .ok (pcq, c1) =>
      match compileExpr pcq.names pred with
      | .error e => .error e
      | .ok ps =>
        if isTable p then
          .ok ({ pcq with sql := pcq.sql ++ " WHERE " ++ ps }, c1)
        else
          .ok ({ pcq with
                 sql := "SELECT * FROM (" ++ pcq.sql ++ ") AS t" ++ toString c1
                   ++ " WHERE " ++ ps }, c1 + 1)
  | .aggregate p keys aggs, c =>
    match compile p c with
    | .error e => .error e
    | .ok (pcq, c1) =>
      match resolveAll pcq.names pcq.types keys with
      | .error e => .error e
      | .ok kts =>
        match compileAggs pcq.names pcq.types aggs with
        | .error e => .error e
        | .ok items =>
          .ok ({ sql := "SELECT "
                   ++ joinSep ", " (keys.map quoteIdent ++ items.map Prod.fst)
                   ++ " FROM (" ++ pcq.sql ++ ") AS t" ++ toString c1
                   ++ (if keys.isEmpty then ""
                       else " GROUP BY " ++ joinSep ", " (keys.map quoteIdent)),
                 names := keys ++ aggs.map Prod.fst,
                 types := kts ++ items.map Prod.snd }, c1 + 1)
  | .sort p keys, c =>
    match compile p c with
    | .error e => .error e
    | .ok (pcq, c1) =>
      match compileSortKeys pcq.names keys with
      | .error e => .error e
      | .ok ks =>
        .ok ({ pcq with sql := pcq.sql ++ " ORDER BY " ++ joinSep ", " ks }, c1)
  | .limit p n off, c =>
    match compile p c with
    | .error e => .error e
    | .ok (pcq, c1) =>
      if carriesLimit p then
        .ok ({ pcq with
               sql := "SELECT * FROM (" ++ pcq.sql ++ ") AS t" ++ toString c1
                 ++ limitClause n off }, c1 + 1)
      else
        .ok ({ pcq with sql := pcq.sql ++ limitClause n off }, c1)
  | .setop kind a b, c =>
    match compile a c with
    | .error e => .error e
    | .ok (acq, c1) =>
      match compile b c1 with
      | .error e => .error e
      | .ok (bcq, c2) =>
        .ok ({ sql := "(" ++ acq.sql ++ ") " ++ setKindStr kind ++ " (" ++ bcq.sql ++ ")",
               names := acq.names, types := acq.types }, c2)

/-- Whether every column reference of a scalar expression traces to an
in-scope column name. -/
def exprResolves (ns : List String) : Expr → Bool
  | .col n => ns.contains n
  | .lit _ => true
  | .bin _ a b => exprResolves ns a && exprResolves ns b
  | .strContains a _ => exprResolves ns a

/-- Whether a sort key's column reference traces to an in-scope name. -/
def keyResolves (ns : List String) : SortKey → Bool
  | .byCol n _ => ns.contains n
  | .byRandom => true

/-- The spec's column-tracing invariant as a resolution semantics: the
output schema (names and types) a node exposes, `none` when some column
reference fails to trace to an ancestor Leaf-Table column or an alias
introduced by an ancestor Projection/Aggregate. -/
def outSchema : Node → Option (List String × List SqlType)
  | .table _ schema => some (schema.map Prod.fst, schema.map Prod.snd)
  | .projection p cols =>
    match outSchema p with
    | none => none
    | some (ns, ts) =>
      match resolveAll ns ts cols with
      | .error _ => none
      | .ok us => some (cols, us)
  | .filter p pred =>
    match outSchema p with
    | none => none
    | some s => if exprResolves s.1 pred then some s else none
  | .aggregate p keys aggs =>
    match outSchema p with
    | none => none
    | some (ns, ts) =>
      match resolveAll ns ts keys with
      | .error _ => none
      | .ok kts =>
        match compileAggs ns ts aggs with
        | .error _ => none
        | .ok items => some (keys ++ aggs.map Prod.fst, kts ++ items.map Prod.snd)
  | .sort p keys =>
    match outSchema p with
    | none => none
    | some s => if keys.all (keyResolves s.1) then some s else none
  | .limit p _ _ => outSchema p
  | .setop _ a b =>
    match outSchema a with
    | none => none
    | some sa =>
      match outSchema b with
      | none => none
      | some _ => some sa

/-- A tree has an unresolved column reference when the spec's tracing
invariant fails somewhere in it. -/
def hasUnresolvedRef (t : Node) : Bool := (outSchema t).isNone

/-- A query-level error: either a compile-time error or an execution-time
error. -/
inductive QueryErr where
  | compileErr (e : CompileError)
  | execErr (e : ExecErr)
deriving DecidableEq, Repr

/-- Modelled from the spec (2, data flow): end-to-end query run: compile the
tree, and only on success contact the server.  The second component counts
the HTTP requests issued: a compile failure surfaces synchronously with
zero network activity. -/
def runQuery (t : Node) (seed : Nat) (resps : List ServerResp) :
    Except QueryErr (List (List Value)) × Nat :=
  match compile t seed with
  | .error e => (.error (.compileErr e), 0)
  | .ok (cq, _) =>
    (match executeFrom cq resps with
     | .error e => .error (.execErr e)
     | .ok tbl => .ok tbl,
     requestsUsed cq resps)

/-- Value of a named column in a row laid out by the given column names;
out-of-scope references read as SQL NULL. -/
def getCol (ns : List String) (r : List Value) (c : String) : Value :=
  match ns.findIdx? (fun n => n = c) with
  | some i => r.getD i .null
  | none => .null

/-- Literal evaluation. -/
def evalLit : Lit → Value
  | .intL i => .int i
  | .strL s => .text s
  | .nullL => .null
  | .boolL b => .bool b

/-- SQL truthiness of a value. -/
def truthy : Value → Bool
  | .int n => n ≠ 0
  | .realV n => n ≠ 0
  | .bool b => b
  | _ => false

/-- Value ordering used by ORDER BY (within one runtime type). -/
def valLe (a b : Value) : Bool :=
  match a, b with
  | .int x, .int y => x ≤ y
  | .realV x, .realV y => x ≤ y
  | .text x, .text y => x ≤ y
  | .bool x, .bool y => !x || y
  | _, _ => true

/-- Binary-operator evaluation over runtime values. -/
def evalBin : BinOp → Value → Value → Value
  | .eq, a, b => .bool (a = b)
  | .ne, a, b => .bool (a ≠ b)
  | .lt, a, b => .bool (valLe a b && a ≠ b)
  | .le, a, b => .bool (valLe a b)
  | .add, .int x, .int y => .int (x + y)
  | .add, _, _ => .null
  | .sub, .int x, .int y => .int (x - y)
  | .sub, _, _ => .null
  | .mul, .int x, .int y => .int (x * y)
  | .mul, _, _ => .null
  | .andB, a, b => .bool (truthy a && truthy b)
  | .orB, a, b => .bool (truthy a || truthy b)

/-- Scalar-expression evaluation over one row. -/
def evalExpr (ns : List String) (r : List Value) : Expr → Value
  | .col n => getCol ns r n
  | .lit l => evalLit l
  | .bin op a b => evalBin op (evalExpr ns r a) (evalExpr ns r b)
  | .strContains a needle =>
    match evalExpr ns r a with
    | .text s => .bool (hasSub needle.data s.data)
    | _ => .bool false

/-- Numeric view of a value (non-numeric values read as 0, as in the remote
engine's loose coercion). -/
def valToInt : Value → Int
  | .int n => n
  | .realV n => n
  | .bool b => if b then 1 else 0
  | _ => 0

/-- Textual view of a value, for the string-concatenation aggregate. -/
def valToStr : Value → String
  | .text s => s
  | .int n => toString n
  | .realV n => toString n
  | .bool b => if b then "1" else "0"
  | .timeV s => s
  | .blob s => s
  | .null => ""

/-- Evaluate one aggregate function over the argument values of a group. -/
def evalAggFun : AggFun → List Value → Value
  | .count, vs => .int vs.length
  | .sum, vs => .int (vs.map valToInt).sum
  | .avg, vs =>
    match vs with
    | [] => .null
    | _ => .realV ((vs.map valToInt).sum / (vs.length : Int))
  | .minA, vs =>
    match vs.map valToInt with
    | [] => .null
    | x :: xs => .int (xs.foldl min x)
  | .maxA, vs =>
    match vs.map valToInt with
    | [] => .null
    | x :: xs => .int (xs.foldl max x)
  | .groupConcat sep, vs => .text (joinSep sep (vs.map valToStr))

/-- Argument values an aggregate ranges over in one group. -/
def argValues (ns : List String) (rows : List (List Value)) : Option String → List Value
  | none => rows.map (fun _ => .int 1)
  | some c => rows.map (fun r => getCol ns r c)

/-- Group key of a row. -/
def keyTuple (ns : List String) (keys : List String) (r : List Value) : List Value :=
  keys.map (getCol ns r)

/-- First-occurrence-order distinct elements. -/
def distinctL : List (List Value) → List (List Value)
  | [] => []
  | k :: rest => k :: distinctL (rest.filter (fun x => x ≠ k))
termination_by l => l.length
decreasing_by
  exact Nat.lt_succ_of_le (List.length_filter_le _ _)

/-- Insertion into a sorted list. -/
def insertLe (le : List Value → List Value → Bool) (x : List Value) :
    List (List Value) → List (List Value)
  | [] => [x]
  | y :: ys => if le x y then x :: y :: ys else y :: insertLe le x ys

/-- Insertion sort (stable enough for the model). -/
def sortByLe (le : List Value → List Value → Bool) : List (List Value) → List (List Value)
  | [] => []
  | x :: xs => insertLe le x (sortByLe le xs)

/-- Lexicographic row comparison along the sort keys; a random key imposes
no deterministic order in the model. -/
def rowLeKeys (ns : List String) : List SortKey → List Value → List Value → Bool
  | [], _, _ => true
  | .byRandom :: rest, r1, r2 => rowLeKeys ns rest r1 r2
  | .byCol n desc :: rest, r1, r2 =>
    let a := getCol ns r1 n
    let b := getCol ns r2 n
    if a = b then rowLeKeys ns rest r1 r2
    else if desc then valLe b a else valLe a b

/-- Column names a node exposes (empty when resolution fails). -/
def outNames (p : Node) : List String :=
  match outSchema p with
  | some s => s.1
  | none => []

/-- Modelled from the spec: the remote engine's evaluation of the
relational tree over the endpoint's table contents — the rows a correct
server returns for the compiled SQL.  Aggregates are evaluated over the
integer view of values; the random sort order is modelled as the identity
permutation (any permutation would do for the counting claims). -/
def eval (env : String → List (List Value)) : Node → List (List Value)
  | .table name _ => env name
  | .projection p cols =>
    (eval env p).map (fun r => cols.map (getCol (outNames p) r))
  | .filter p pred =>
    (eval env p).filter (fun r => truthy (evalExpr (outNames p) r pred))
  | .aggregate p keys aggs =>
    let ns := outNames p
    let rows := eval env p
    if keys.isEmpty then
      [aggs.map (fun ia => evalAggFun ia.2.fn (argValues ns rows ia.2.arg))]
    else
      (distinctL (rows.map (keyTuple ns keys))).map (fun k =>
        let grp := rows.filter (fun r => keyTuple ns keys r = k)
        k ++ aggs.map (fun ia => evalAggFun ia.2.fn (argValues ns grp ia.2.arg)))
  | .sort p keys => sortByLe (rowLeKeys (outNames p) keys) (eval env p)
  | .limit p n off => ((eval env p).drop (off.getD 0)).take n
  | .setop kind a b =>
    let ra := eval env a
    let rb := eval env b
    match kind with
    | .unionAll => ra ++ rb
    | .union => distinctL (ra ++ rb)
    | .intersect => distinctL (ra.filter (fun r => rb.contains r))
    | .exceptOp => distinctL (ra.filter (fun r => !rb.contains r))

/-- Encode a value back to the JSON scalar an honest server would ship. -/
def encodeValue : Value → Json
  | .int n => .num n
  | .realV n => .num n
  | .text s => .str s
  | .bool b => .jbool b
  | .timeV s => .str s
  | .blob s => .str s
  | .null => .null

/-- Encode a table's rows to their JSON wire form. -/
def encodeRows (rows : List (List Value)) : List (List Json) :=
  rows.map (fun r => r.map encodeValue)

/-- Whether a tree contains a Limit node with row count `n`. -/
def containsLimitWith (n : Nat) : Node → Bool
  | .table _ _ => false
  | .projection p _ => containsLimitWith n p
  | .filter p _ => containsLimitWith n p
  | .aggregate p _ _ => containsLimitWith n p
  | .sort p _ => containsLimitWith n p
  | .limit p m _ => m = n || containsLimitWith n p
  | .setop _ a b => containsLimitWith n a || containsLimitWith n b

/-- Modelled from the spec / README: a connection binds the endpoint parsed
from the single full-URL string to the catalog fetched for it. -/
structure Connection where
  baseUrl : String
  database : String
  schemas : List (String × List (String × SqlType))
deriving Repr

/-- Split a character list at every occurrence of the separator. -/
def splitCharList (sep : Char) : List Char → List (List Char)
  | [] => [[]]
  | c :: rest =>
    match splitCharList sep rest with
    | [] => if c = sep then [[], []] else [[c]]
    | h :: t => if c = sep then [] :: h :: t else (c :: h) :: t

/-- Split the full database URL into base URL and database name (the last
path segment). -/
def splitUrl (url : String) : String × String :=
  let parts := (splitCharList '/' url.data).map String.mk
  (joinSep "/" parts.dropLast, parts.getLastD "")

/-- Modelled from the spec / README: `ibis.datasette.connect` takes the
full URL to a database as one string (base URL and database name combined)
and returns a connection; the remote catalog service (schema discovery,
spec 4.4) is passed as a function from base URL and database name to the
table list with per-table schemas. -/
def connect (url : String)
    (remoteCatalog : String → String → List (String × List (String × SqlType))) : Connection :=
  let bd := splitUrl url
  ⟨bd.1, bd.2, remoteCatalog bd.1 bd.2⟩

/-- Modelled from the README: `con.list_tables()` returns the names of the
remote tables. -/
def Connection.list_tables (c : Connection) : List String :=
  c.schemas.map Prod.fst

/-- Modelled from the README: `con.tables.<name>` exposes a Leaf-Table
handle for each listed table, by name. -/
def Connection.tables (c : Connection) (name : String) : Option Node :=
  match c.schemas.find? (fun p => p.1 = name) with
  | some p => some (.table name p.2)
  | none => none

/-- `pat` occurs as a contiguous substring of `s`. -/
def containsSub (pat s : String) : Prop := ∃ a b, s = a ++ pat ++ b

/-- A response the pagination loop can consume and continue past: a 2xx
page with matching columns, decodable rows and a continuation token. -/
def goodResp (cq : CompiledQuery) (r : ServerResp) : Prop :=
  ∃ p vs, r = .ok p ∧ p.columns = cq.names ∧ (∃ tok, p.next = some tok) ∧
    decodeRows p.rows cq.types = .ok vs

/-- A tree containing a Limit node with n = 1 that is not the root: the
union-all of two one-row subqueries. -/
def unionOfLimits : Node :=
  .setop .unionAll
    (.limit (.table "t" [("Category", .text), ("count", .integer)]) 1 none)
    (.limit (.table "t" [("Category", .text), ("count", .integer)]) 1 none)

/-- Three-row contents for the leaf table of `unionOfLimits`. -/
def envThree : String → List (List Value) := fun n =>
  if n = "t" then [[.text "a", .int 1], [.text "b", .int 2], [.text "c", .int 3]] else []

/-- What a correct server returns for `unionOfLimits` over `envThree`. -/
def rowsTwo : List (List Value) := [[.text "a", .int 1], [.text "a", .int 1]]

/-- The query `unionOfLimits` compiles to. -/
def cqUnion : CompiledQuery :=
  { sql := "(SELECT * FROM \"t\" LIMIT 1) UNION ALL (SELECT * FROM \"t\" LIMIT 1)",
    names := ["Category", "count"], types := [.text, .integer] }

lemma containsSub_appendL (pat s x : String) (h : containsSub pat s) :
    containsSub pat (x ++ s) := by
  obtain ⟨a, b, hab⟩ := h
  exact ⟨x ++ a, b, by rw [hab]; simp [String.append_assoc]⟩

lemma containsSub_appendR (pat s x : String) (h : containsSub pat s) :
    containsSub pat (s ++ x) := by
  obtain ⟨a, b, hab⟩ := h
  exact ⟨a, b ++ x, by rw [hab]; simp [String.append_assoc]⟩

lemma containsSub_middle (pat a b : String) : containsSub pat (a ++ pat ++ b) :=
  ⟨a, b, rfl⟩

lemma containsSub_self (pat : String) : containsSub pat pat :=
  ⟨"", "", by simp⟩

/-- A member of a joined list occurs in the join. -/
lemma containsSub_joinSep (sep : String) (x : String) :
    ∀ l : List String, x ∈ l → containsSub x (joinSep sep l) := by
  intro l
  induction l with
  | nil => intro h; cases h
  | cons s rest ih =>
    intro hmem
    cases rest with
    | nil =>
      have : x = s := by
        rcases List.mem_cons.mp hmem with h | h
        · exact h
        · cases h
      rw [joinSep, this]
      exact containsSub_self s
    | cons s2 rest2 =>
      rcases List.mem_cons.mp hmem with h | h
      · subst h
        show containsSub x (x ++ sep ++ joinSep sep (s2 :: rest2))
        exact containsSub_appendR _ _ _ (containsSub_appendR _ _ _ (containsSub_self x))
      · show containsSub x (s ++ sep ++ joinSep sep (s2 :: rest2))
        exact containsSub_appendL _ _ _ (ih h)

/-- C7: declaredTypeToCanonical maps declared-type strings by
prefix/keyword, in the spec's listed priority: a token containing "int"
yields integer; otherwise "real"/"float"/"double"/"numeric" yields real;
otherwise "text"/"char"/"clob" or the empty declaration yields text;
otherwise "bool" yields boolean; otherwise "blob" yields binary; otherwise
"date"/"time" yields timestamp; any other declaration defaults to text. -/
theorem declaredType_keyword_mapping (s : String) :
    (containsTok s "int" = true → declaredTypeToCanonical s = .integer) ∧
    (containsTok s "int" = false →
      (containsTok s "real" || containsTok s "float" || containsTok s "double"
        || containsTok s "numeric") = true →
      declaredTypeToCanonical s = .real) ∧
    (containsTok s "int" = false →
      (containsTok s "real" || containsTok s "float" || containsTok s "double"
        || containsTok s "numeric") = false →
      (containsTok s "text" || containsTok s "char" || containsTok s "clob"
        || decide (s = "")) = true →
      declaredTypeToCanonical s = .text) ∧
    (containsTok s "int" = false →
      (containsTok s "real" || containsTok s "float" || containsTok s "double"
        || containsTok s "numeric") = false →
      (containsTok s "text" || containsTok s "char" || containsTok s "clob"
        || decide (s = "")) = false →
      containsTok s "bool" = true →
      declaredTypeToCanonical s = .boolean) ∧
    (containsTok s "int" = false →
      (containsTok s "real" || containsTok s "float" || containsTok s "double"
        || containsTok s "numeric") = false →
      (containsTok s "text" || containsTok s "char" || containsTok s "clob"
        || decide (s = "")) = false →
      containsTok s "bool" = false →
      containsTok s "blob" = true →
      declaredTypeToCanonical s = .binary) ∧
    (containsTok s "int" = false →
      (containsTok s "real" || containsTok s "float" || containsTok s "double"
        || containsTok s "numeric") = false →
      (containsTok s "text" || containsTok s "char" || containsTok s "clob"
        || decide (s = "")) = false →
      containsTok s "bool" = false →
      containsTok s "blob" = false →
      (containsTok s "date" || containsTok s "time") = true →
      declaredTypeToCanonical s = .timestamp) ∧
    (containsTok s "int" = false →
      (containsTok s "real" || containsTok s "float" || containsTok s "double"
        || containsTok s "numeric") = false →
      (containsTok s "text" || containsTok s "char" || containsTok s "clob"
        || decide (s = "")) = false →
      containsTok s "bool" = false →
      containsTok s "blob" = false →
      (containsTok s "date" || containsTok s "time") = false →
      declaredTypeToCanonical s = .text) := by
  refine ⟨?_, ?_, ?_, ?_, ?_, ?_, ?_⟩ <;>
    intros <;> simp_all [declaredTypeToCanonical]

/-- Witness for C7: the mapping evaluated across one representative of each
keyword group, including an unknown declaration defaulting to text. -/
theorem declaredType_keyword_mapping_witness :
    declaredTypeToCanonical "INTEGER" = .integer ∧
    declaredTypeToCanonical "VARCHAR(20)" = .text ∧
    declaredTypeToCanonical "FLOAT" = .real ∧
    declaredTypeToCanonical "" = .text ∧
    declaredTypeToCanonical "BOOLEAN" = .boolean ∧
    declaredTypeToCanonical "BLOB" = .binary ∧
    declaredTypeToCanonical "DATETIME" = .timestamp ∧
    declaredTypeToCanonical "mystery" = .text :=
  ⟨(declaredType_keyword_mapping "INTEGER").1 (by decide),
   (declaredType_keyword_mapping "VARCHAR(20)").2.2.1 (by decide) (by decide) (by decide),
   (declaredType_keyword_mapping "FLOAT").2.1 (by decide) (by decide),
   (declaredType_keyword_mapping "").2.2.1 (by decide) (by decide) (by decide),
   (declaredType_keyword_mapping "BOOLEAN").2.2.2.1 (by decide) (by decide) (by decide)
     (by decide),
   (declaredType_keyword_mapping "BLOB").2.2.2.2.1 (by decide) (by decide) (by decide)
     (by decide) (by decide),
   (declaredType_keyword_mapping "DATETIME").2.2.2.2.2.1 (by decide) (by decide) (by decide)
     (by decide) (by decide) (by decide),
   (declaredType_keyword_mapping "mystery").2.2.2.2.2.2 (by decide) (by decide) (by decide)
     (by decide) (by decide) (by decide)⟩

/-- C8: decodeValue coercion rules over every output Type: a JSON number in
a text-typed column passes through as text via string conversion; a JSON
string in a numeric-typed column (integer or real, the model's numeric
types) is accepted exactly when it parses cleanly as a number and
otherwise raises TypeCoercionFailure; and a numeric-looking JSON string in
a column of any non-numeric output Type is never coerced to a number: for
text, timestamp, binary and null-typed columns the string itself is kept,
and a boolean column rejects it with TypeCoercionFailure rather than
reading it numerically. -/
theorem decodeValue_coercion_rules (n : Int) (s : String) :
    (decodeValue (.num n) .text = .ok (.text (toString n))) ∧
    (∀ m, parseIntStr s = some m → decodeValue (.str s) .integer = .ok (.int m)) ∧
    (parseIntStr s = none → decodeValue (.str s) .integer = .error .typeCoercionFailure) ∧
    (∀ m, parseIntStr s = some m → decodeValue (.str s) .real = .ok (.realV m)) ∧
    (parseIntStr s = none → decodeValue (.str s) .real = .error .typeCoercionFailure) ∧
    (decodeValue (.str s) .text = .ok (.text s)) ∧
    (decodeValue (.str s) .timestamp = .ok (.timeV s)) ∧
    (decodeValue (.str s) .binary = .ok (.blob s)) ∧
    (decodeValue (.str s) .nullT = .ok (.text s)) ∧
    (decodeValue (.str s) .boolean = .error .typeCoercionFailure) := by
  refine ⟨rfl, ?_, ?_, ?_, ?_, rfl, rfl, rfl, rfl, rfl⟩
  · intro m hm
    simp [decodeValue, hm]
  · intro hm
    simp [decodeValue, hm]
  · intro m hm
    simp [decodeValue, hm]
  · intro hm
    simp [decodeValue, hm]

/-- Witness for C8: a clean numeric string decodes to its number in both
numeric column types; a garbage string fails in both; the zero-padded code
"007" survives untouched in a text column. -/
theorem decodeValue_coercion_rules_witness :
    decodeValue (.str "42") .integer = .ok (.int 42) ∧
    decodeValue (.str "12a") .integer = .error .typeCoercionFailure ∧
    decodeValue (.str "42") .real = .ok (.realV 42) ∧
    decodeValue (.str "12a") .real = .error .typeCoercionFailure ∧
    decodeValue (.str "007") .text = .ok (.text "007") :=
  ⟨(decodeValue_coercion_rules 0 "42").2.1 42 (by decide),
   (decodeValue_coercion_rules 0 "12a").2.2.1 (by decide),
   (decodeValue_coercion_rules 0 "42").2.2.2.1 42 (by decide),
   (decodeValue_coercion_rules 0 "12a").2.2.2.2.1 (by decide),
   (decodeValue_coercion_rules 0 "007").2.2.2.2.2.1⟩

lemma decodeRow_ok_length (r : List Json) :
    ∀ ts v, decodeRow r ts = .ok v → v.length = ts.length := by
  induction r with
  | nil =>
    intro ts v h
    cases ts with
    | nil => simp [decodeRow] at h; subst h; rfl
    | cons t ts => simp [decodeRow] at h
  | cons j r ih =>
    intro ts v h
    cases ts with
    | nil => simp [decodeRow] at h
    | cons t ts =>
      simp only [decodeRow] at h
      cases hv : decodeValue j t with
      | error e => rw [hv] at h; cases h
      | ok x =>
        rw [hv] at h
        cases hrest : decodeRow r ts with
        | error e => rw [hrest] at h; cases h
        | ok xs =>
          rw [hrest] at h
          cases h
          simp [ih ts xs hrest]

lemma decodeRows_ok_width (rs : List (List Json)) :
    ∀ ts vs, decodeRows rs ts = .ok vs → ∀ v ∈ vs, v.length = ts.length := by
  induction rs with
  | nil =>
    intro ts vs h v hv
    simp [decodeRows] at h
    subst h
    cases hv
  | cons r rs ih =>
    intro ts vs h v hv
    simp only [decodeRows] at h
    cases h1 : decodeRow r ts with
    | error e => rw [h1] at h; cases h
    | ok x =>
      rw [h1] at h
      cases h2 : decodeRows rs ts with
      | error e => rw [h2] at h; cases h
      | ok xs =>
        rw [h2] at h
        cases h
        rcases List.mem_cons.mp hv with hx | hx
        · subst hx; exact decodeRow_ok_length r ts v h1
        · exact ih ts xs h2 v hx

lemma decodeRows_append (a b : List (List Json)) (ts : List SqlType) :
    decodeRows (a ++ b) ts =
      match decodeRows a ts with
      | .error e => .error e
      | .ok x =>
        match decodeRows b ts with
        | .error e => .error e
        | .ok y => .ok (x ++ y) := by
  induction a with
  | nil =>
    simp only [List.nil_append, decodeRows]
    cases decodeRows b ts <;> rfl
  | cons r a iha =>
    simp only [List.cons_append, decodeRows]
    cases h1 : decodeRow r ts with
    | error e => rfl
    | ok v =>
      rw [show List.append a b = a ++ b from rfl, iha]
      cases decodeRows a ts with
      | error e => rfl
      | ok x =>
        cases decodeRows b ts <;> rfl

/-- A single complete page with matching columns and no continuation token
materializes to exactly its decoded rows. -/
lemma executeFrom_single (cq : CompiledQuery) (rows : List (List Json)) :
    executeFrom cq [.ok ⟨cq.names, rows, none⟩] = decodeRows rows cq.types := by
  simp only [executeFrom, if_pos rfl]
  cases decodeRows rows cq.types <;> rfl

/-- C2: pagination stitching preserves row order: for every split of the
result rows across k >= 1 sequential pages (continuation token on every
page but the last), `executeFrom` produces exactly the result of the single
page containing all rows in order — pages are followed strictly
sequentially, each page's decoded rows appended in order, stopping when no
continuation token is returned. -/
theorem pagination_stitching (cq : CompiledQuery) (rss : List (List (List Json)))
    (h : rss ≠ []) :
    executeFrom cq (mkPages cq.names rss) =
      executeFrom cq [.ok ⟨cq.names, rss.flatten, none⟩] := by
  induction rss with
  | nil => cases h rfl
  | cons rs rest ih =>
    cases rest with
    | nil =>
      simp [mkPages, List.flatten]
    | cons rs2 rest2 =>
      rw [executeFrom_single]
      show executeFrom cq (.ok ⟨cq.names, rs, some "_next"⟩ :: mkPages cq.names (rs2 :: rest2))
        = decodeRows (rs ++ (rs2 :: rest2).flatten) cq.types
      rw [decodeRows_append]
      simp only [executeFrom, if_pos rfl]
      cases hd : decodeRows rs cq.types with
      | error e => rfl
      | ok vs =>
        rw [ih (by simp), executeFrom_single]
        cases decodeRows (rs2 :: rest2).flatten cq.types <;> rfl

/-- Witness for C2: three rows split across two pages stitch to the same
table as a single page holding all three. -/
theorem pagination_stitching_witness :
    executeFrom { sql := "SELECT * FROM \"t\"", names := ["a"], types := [.integer] }
        (mkPages ["a"] [[[.num 1], [.num 2]], [[.num 3]]])
      = executeFrom { sql := "SELECT * FROM \"t\"", names := ["a"], types := [.integer] }
        [.ok ⟨["a"], [[.num 1], [.num 2], [.num 3]], none⟩] :=
  pagination_stitching
    { sql := "SELECT * FROM \"t\"", names := ["a"], types := [.integer] }
    [[[.num 1], [.num 2]], [[.num 3]]] (by decide)

/-- C3: no partial rows: every row of a MaterializedTable returned by the
execution client has width equal to the CompiledQuery's output column
count, for every response sequence. -/
theorem execute_no_partial_rows (cq : CompiledQuery) (resps : List ServerResp)
    (tbl : List (List Value)) (h : executeFrom cq resps = .ok tbl) :
    ∀ r ∈ tbl, r.length = cq.types.length := by
  induction resps generalizing tbl with
  | nil => cases h
  | cons r rest ih =>
    cases r with
    | httpError status body => cases h
    | transportFail => cases h
    | ok p =>
      simp only [executeFrom] at h
      by_cases hc : p.columns = cq.names
      · rw [if_pos hc] at h
        cases hd : decodeRows p.rows cq.types with
        | error e => rw [hd] at h; cases h
        | ok vs =>
          rw [hd] at h
          cases hn : p.next with
          | none =>
            rw [hn] at h
            cases h
            exact decodeRows_ok_width p.rows cq.types tbl hd
          | some tok =>
            rw [hn] at h
            cases he : executeFrom cq rest with
            | error e => rw [he] at h; cases h
            | ok tail =>
              rw [he] at h
              cases h
              intro v hv
              rcases List.mem_append.mp hv with hx | hx
              · exact decodeRows_ok_width p.rows cq.types vs hd v hx
              · exact ih tail he v hx
      · rw [if_neg hc] at h
        cases h

/-- Witness for C3: a concrete two-page execution returns rows whose widths
both equal the output column count 2. -/
theorem execute_no_partial_rows_witness :
    [Value.int 1, Value.text "x"].length = 2 ∧ [Value.int 2, Value.text "y"].length = 2 :=
  ⟨execute_no_partial_rows
      { sql := "SELECT * FROM \"t\"", names := ["a", "b"], types := [.integer, .text] }
      [.ok ⟨["a", "b"], [[.num 1, .str "x"]], some "_next"⟩,
       .ok ⟨["a", "b"], [[.num 2, .str "y"]], none⟩]
      [[Value.int 1, Value.text "x"], [Value.int 2, Value.text "y"]] rfl
      [Value.int 1, Value.text "x"] (by simp),
   execute_no_partial_rows
      { sql := "SELECT * FROM \"t\"", names := ["a", "b"], types := [.integer, .text] }
      [.ok ⟨["a", "b"], [[.num 1, .str "x"]], some "_next"⟩,
       .ok ⟨["a", "b"], [[.num 2, .str "y"]], none⟩]
      [[Value.int 1, Value.text "x"], [Value.int 2, Value.text "y"]] rfl
      [Value.int 2, Value.text "y"] (by simp)⟩

/-- Consuming a prefix of good pages only prepends their decoded rows: the
final outcome is decided by the remaining responses. -/
lemma executeFrom_good_append (cq : CompiledQuery) (pref : List ServerResp)
    (h : ∀ r ∈ pref, goodResp cq r) :
    ∃ acc, ∀ rest, executeFrom cq (pref ++ rest) =
      match executeFrom cq rest with
      | .error e => .error e
      | .ok t => .ok (acc ++ t) := by
  induction pref with
  | nil =>
    refine ⟨[], fun rest => ?_⟩
    simp only [List.nil_append]
    cases executeFrom cq rest <;> rfl
  | cons r pref ih =>
    obtain ⟨p, vs, hr, hcols, ⟨tok, htok⟩, hdec⟩ := h r (List.mem_cons_self r pref)
    obtain ⟨acc, hacc⟩ := ih (fun x hx => h x (List.mem_cons_of_mem r hx))
    refine ⟨vs ++ acc, fun rest => ?_⟩
    subst hr
    show executeFrom cq (.ok p :: (pref ++ rest)) = _
    simp only [executeFrom, if_pos hcols, hdec, htok, hacc rest]
    cases executeFrom cq rest with
    | error e => rfl
    | ok t => simp [List.append_assoc]

/-- C4: execution is all-or-nothing: after any prefix of successfully
consumed pages, a non-2xx response yields ExecutionError(RemoteFailure)
with its status and body, a transport failure (or a promised page that
never arrives) yields ExecutionError(IncompleteResult), and in every such
case no MaterializedTable is returned — the accumulated prefix is
discarded, never returned as a complete table. -/
theorem execute_all_or_nothing (cq : CompiledQuery) (pref : List ServerResp)
    (h : ∀ r ∈ pref, goodResp cq r) :
    (∀ status body rest,
      executeFrom cq (pref ++ .httpError status body :: rest)
        = .error (.remoteFailure status body)) ∧
    (∀ rest, executeFrom cq (pref ++ .transportFail :: rest) = .error .incompleteResult) ∧
    executeFrom cq pref = .error .incompleteResult := by
  obtain ⟨acc, hacc⟩ := executeFrom_good_append cq pref h
  refine ⟨fun status body rest => ?_, fun rest => ?_, ?_⟩
  · rw [hacc (.httpError status body :: rest)]
    rfl
  · rw [hacc (.transportFail :: rest)]
    rfl
  · have h0 := hacc []
    rw [List.append_nil] at h0
    rw [h0]
    rfl

/-- Witness for C4: after one good page, an HTTP 500 aborts the whole
execution with RemoteFailure — the first page's rows are not returned. -/
theorem execute_all_or_nothing_witness :
    executeFrom { sql := "SELECT * FROM \"t\"", names := ["a"], types := [.integer] }
        [.ok ⟨["a"], [[.num 1]], some "_next"⟩, .httpError 500 "server error"]
      = .error (.remoteFailure 500 "server error") :=
  (execute_all_or_nothing
    { sql := "SELECT * FROM \"t\"", names := ["a"], types := [.integer] }
    [.ok ⟨["a"], [[.num 1]], some "_next"⟩]
    (by
      intro r hr
      simp only [List.mem_singleton] at hr
      subst hr
      exact ⟨_, [[Value.int 1]], rfl, rfl, ⟨"_next", rfl⟩, rfl⟩)).1 500 "server error" []

/-- C5: a page whose reported column list differs from the CompiledQuery's
expected output column list (in name or order) makes execution fail with
ExecutionError(SchemaMismatch), wherever it occurs in the pagination
sequence — columns are never silently reordered to match. -/
theorem schema_mismatch_rejected (cq : CompiledQuery) (pref : List ServerResp)
    (page : Page) (h : ∀ r ∈ pref, goodResp cq r) (hcols : page.columns ≠ cq.names) :
    ∀ rest, executeFrom cq (pref ++ .ok page :: rest) = .error .schemaMismatch := by
  obtain ⟨acc, hacc⟩ := executeFrom_good_append cq pref h
  intro rest
  rw [hacc (.ok page :: rest)]
  simp only [executeFrom, if_neg hcols]

/-- Witness for C5: a server reporting the two output columns in reversed
order is rejected with SchemaMismatch. -/
theorem schema_mismatch_rejected_witness :
    executeFrom { sql := "SELECT * FROM \"t\"", names := ["a", "b"], types := [.integer, .text] }
        [.ok ⟨["b", "a"], [[.str "x", .num 1]], none⟩]
      = .error .schemaMismatch := by
  have := schema_mismatch_rejected
    { sql := "SELECT * FROM \"t\"", names := ["a", "b"], types := [.integer, .text] }
    [] ⟨["b", "a"], [[.str "x", .num 1]], none⟩
    (by intro r hr; cases hr) (by decide) []
  simpa using this

/-- A random sort key compiles to the dialect's `random()` call among the
ORDER BY items. -/
lemma sortKeys_random_mem (ns : List String) :
    ∀ keys ks, SortKey.byRandom ∈ keys → compileSortKeys ns keys = .ok ks →
      "random()" ∈ ks := by
  intro keys
  induction keys with
  | nil => intro ks h; cases h
  | cons k rest ih =>
    intro ks hmem hok
    simp only [compileSortKeys] at hok
    cases h1 : compileSortKey ns k with
    | error e => rw [h1] at hok; cases hok
    | ok s =>
      rw [h1] at hok
      cases h2 : compileSortKeys ns rest with
      | error e => rw [h2] at hok; cases hok
      | ok ss =>
        rw [h2] at hok
        cases hok
        rcases List.mem_cons.mp hmem with hk | hk
        · subst hk
          simp only [compileSortKey] at h1
          cases h1
          exact List.mem_cons_self _ _
        · exact List.mem_cons_of_mem _ (ih ss hk h2)

/-- C1: compile is a pure function of the tree and the alias-counter seed —
no I/O is possible by construction, and two compilations of the same tree
from the same seed are the same value, so the emitted SQL text is
identical; for a random-order tree the compiled SQL still contains the
ORDER BY with the dialect's random() call (the randomness lives in the
server's evaluation, never in the SQL text's presence of the clause). -/
theorem compile_pure_deterministic (t : Node) (seed : Nat) :
    compile t seed = compile t seed ∧
    (∀ p keys cq c2, t = .sort p keys → SortKey.byRandom ∈ keys →
      compile t seed = .ok (cq, c2) →
      containsSub "ORDER BY" cq.sql ∧ containsSub "random()" cq.sql) := by
  refine ⟨rfl, ?_⟩
  intro p keys cq c2 ht hmem hok
  subst ht
  simp only [compile] at hok
  cases h1 : compile p seed with
  | error e => simp [h1] at hok
  | ok pc =>
    obtain ⟨pcq, c1⟩ := pc
    simp only [h1] at hok
    cases h2 : compileSortKeys pcq.names keys with
    | error e => simp [h2] at hok
    | ok ks =>
      simp only [h2] at hok
      cases hok
      constructor
      · refine ⟨pcq.sql ++ " ", " " ++ joinSep ", " ks, ?_⟩
        show pcq.sql ++ " ORDER BY " ++ joinSep ", " ks = _
        rw [show (" ORDER BY " : String) = " " ++ "ORDER BY" ++ " " from rfl]
        simp only [String.append_assoc]
      · exact containsSub_appendL _ _ _
          (containsSub_joinSep ", " "random()" ks (sortKeys_random_mem pcq.names keys ks hmem h2))

/-- Witness for C1: the compiled SQL of a random-order sort over a leaf
table contains both the ORDER BY and the random() call. -/
theorem compile_pure_deterministic_witness :
    containsSub "ORDER BY"
      ({ sql := "SELECT * FROM \"t\" ORDER BY random()", names := ["Category", "count"],
         types := [SqlType.text, SqlType.integer] } : CompiledQuery).sql ∧
    containsSub "random()"
      ({ sql := "SELECT * FROM \"t\" ORDER BY random()", names := ["Category", "count"],
         types := [SqlType.text, SqlType.integer] } : CompiledQuery).sql :=
  (compile_pure_deterministic
      (.sort (.table "t" [("Category", .text), ("count", .integer)]) [.byRandom]) 0).2
    (.table "t" [("Category", .text), ("count", .integer)]) [.byRandom]
    { sql := "SELECT * FROM \"t\" ORDER BY random()", names := ["Category", "count"],
      types := [SqlType.text, SqlType.integer] } 0
    rfl (List.mem_singleton.mpr rfl) rfl

/-- The only compile-time error variant is UnknownColumn. -/
lemma compileError_eq (e : CompileError) : ∃ c, e = .unknownColumn c := by
  cases e with
  | unknownColumn c => exact ⟨c, rfl⟩

lemma compileExpr_ok_of (ns : List String) (e : Expr) (h : exprResolves ns e = true) :
    ∃ s, compileExpr ns e = .ok s := by
  induction e with
  | col n =>
    have hm : n ∈ ns := by simpa [exprResolves] using h
    exact ⟨quoteIdent n, by simp [compileExpr, hm]⟩
  | lit l => exact ⟨renderLit l, rfl⟩
  | bin op a b iha ihb =>
    simp only [exprResolves, Bool.and_eq_true] at h
    obtain ⟨sa, ha⟩ := iha h.1
    obtain ⟨sb, hb⟩ := ihb h.2
    exact ⟨"(" ++ sa ++ " " ++ opStr op ++ " " ++ sb ++ ")",
      by simp only [compileExpr, ha, hb]⟩
  | strContains a needle iha =>
    simp only [exprResolves] at h
    obtain ⟨sa, ha⟩ := iha h
    exact ⟨"(" ++ sa ++ " LIKE " ++ sqStr ("%" ++ escLike needle ++ "%") ++ ")",
      by simp only [compileExpr, ha]⟩

lemma compileExpr_err_of (ns : List String) (e : Expr) (h : exprResolves ns e = false) :
    ∃ er, compileExpr ns e = .error er := by
  induction e with
  | col n =>
    have hm : n ∉ ns := by simpa [exprResolves] using h
    exact ⟨.unknownColumn n, by simp [compileExpr, hm]⟩
  | lit l => simp [exprResolves] at h
  | bin op a b iha ihb =>
    simp only [exprResolves, Bool.and_eq_false_iff] at h
    rcases h with h | h
    · obtain ⟨er, ha⟩ := iha h
      exact ⟨er, by simp only [compileExpr, ha]⟩
    · cases ha2 : exprResolves ns a with
      | false =>
        obtain ⟨er, ha⟩ := iha ha2
        exact ⟨er, by simp only [compileExpr, ha]⟩
      | true =>
        obtain ⟨sa, ha⟩ := compileExpr_ok_of ns a ha2
        obtain ⟨er, hb⟩ := ihb h
        exact ⟨er, by simp only [compileExpr, ha, hb]⟩
  | strContains a needle iha =>
    simp only [exprResolves] at h
    obtain ⟨er, ha⟩ := iha h
    exact ⟨er, by simp only [compileExpr, ha]⟩

lemma compileSortKeys_ok_of (ns : List String) (keys : List SortKey)
    (h : keys.all (keyResolves ns) = true) : ∃ ks, compileSortKeys ns keys = .ok ks := by
  induction keys with
  | nil => exact ⟨[], rfl⟩
  | cons k rest ih =>
    simp only [List.all_cons, Bool.and_eq_true] at h
    obtain ⟨ks, hks⟩ := ih h.2
    cases k with
    | byCol n desc =>
      have hm : n ∈ ns := by simpa [keyResolves] using h.1
      exact ⟨(quoteIdent n ++ if desc then " DESC" else " ASC") :: ks,
        by simp [compileSortKeys, compileSortKey, hm, hks]⟩
    | byRandom =>
      exact ⟨"random()" :: ks, by simp [compileSortKeys, compileSortKey, hks]⟩

lemma compileSortKeys_err_of (ns : List String) (keys : List SortKey)
    (h : keys.all (keyResolves ns) = false) : ∃ er, compileSortKeys ns keys = .error er := by
  induction keys with
  | nil => simp at h
  | cons k rest ih =>
    simp only [List.all_cons, Bool.and_eq_false_iff] at h
    rcases h with h | h
    · cases k with
      | byCol n desc =>
        have hm : n ∉ ns := by simpa [keyResolves] using h
        exact ⟨.unknownColumn n, by simp [compileSortKeys, compileSortKey, hm]⟩
      | byRandom => simp [keyResolves] at h
    · obtain ⟨er, hks⟩ := ih h
      cases k with
      | byCol n desc =>
        by_cases hm : n ∈ ns
        · exact ⟨er, by simp [compileSortKeys, compileSortKey, hm, hks]⟩
        · exact ⟨.unknownColumn n, by simp [compileSortKeys, compileSortKey, hm]⟩
      | byRandom => exact ⟨er, by simp [compileSortKeys, compileSortKey, hks]⟩

/-- The compiler realizes the resolution semantics: where `outSchema`
assigns a schema, `compile` succeeds from any alias-counter seed with
exactly those output names and types; where `outSchema` fails, `compile`
fails. -/
lemma compile_matches_outSchema (t : Node) : ∀ c : Nat,
    (∀ s, outSchema t = some s →
      ∃ cq c2, compile t c = .ok (cq, c2) ∧ cq.names = s.1 ∧ cq.types = s.2) ∧
    (outSchema t = none → ∃ er, compile t c = .error er) := by
  induction t with
  | table name schema =>
    intro c
    constructor
    · intro s hs
      simp only [outSchema] at hs
      cases hs
      exact ⟨_, _, rfl, rfl, rfl⟩
    · intro hnone
      simp [outSchema] at hnone
  | projection p cols ih =>
    intro c
    constructor
    · intro s hs
      simp only [outSchema] at hs
      cases hp : outSchema p with
      | none => rw [hp] at hs; cases hs
      | some ps =>
        obtain ⟨ns, ts⟩ := ps
        simp only [hp] at hs
        cases hr : resolveAll ns ts cols with
        | error e => rw [hr] at hs; cases hs
        | ok us =>
          rw [hr] at hs
          cases hs
          obtain ⟨pcq, c1, hok, hn, ht⟩ := (ih c).1 (ns, ts) hp
          exact ⟨{ sql := "SELECT " ++ joinSep ", " (cols.map quoteIdent) ++ " FROM ("
                     ++ pcq.sql ++ ") AS t" ++ toString c1,
                   names := cols, types := us }, c1 + 1,
            by simp only [compile, hok, hn, ht, hr], rfl, rfl⟩
    · intro hnone
      simp only [outSchema] at hnone
      cases hp : outSchema p with
      | none =>
        obtain ⟨er, herr⟩ := (ih c).2 hp
        exact ⟨er, by simp only [compile, herr]⟩
      | some ps =>
        obtain ⟨ns, ts⟩ := ps
        simp only [hp] at hnone
        cases hr : resolveAll ns ts cols with
        | ok us => rw [hr] at hnone; cases hnone
        | error e =>
          obtain ⟨pcq, c1, hok, hn, ht⟩ := (ih c).1 (ns, ts) hp
          exact ⟨e, by simp only [compile, hok, hn, ht, hr]⟩
  | filter p pred ih =>
    intro c
    constructor
    · intro s hs
      simp only [outSchema] at hs
      cases hp : outSchema p with
      | none => rw [hp] at hs; cases hs
      | some ps =>
        simp only [hp] at hs
        cases hres : exprResolves ps.1 pred with
        | false => rw [hres] at hs; cases hs
        | true =>
          rw [hres] at hs
          simp only [if_true] at hs
          cases hs
          obtain ⟨pcq, c1, hok, hn, ht⟩ := (ih c).1 s hp
          obtain ⟨sx, hce⟩ := compileExpr_ok_of s.1 pred hres
          cases hit : isTable p with
          | true =>
            exact ⟨{ pcq with sql := pcq.sql ++ " WHERE " ++ sx }, c1,
              by simp [compile, hok, hn, hce, hit], hn, ht⟩
          | false =>
            exact ⟨{ pcq with
                     sql := "SELECT * FROM (" ++ pcq.sql ++ ") AS t" ++ toString c1
                       ++ " WHERE " ++ sx }, c1 + 1,
              by simp [compile, hok, hn, hce, hit], hn, ht⟩
    · intro hnone
      simp only [outSchema] at hnone
      cases hp : outSchema p with
      | none =>
        obtain ⟨er, herr⟩ := (ih c).2 hp
        exact ⟨er, by simp only [compile, herr]⟩
      | some ps =>
        simp only [hp] at hnone
        cases hres : exprResolves ps.1 pred with
        | true => rw [hres] at hnone; simp at hnone
        | false =>
          obtain ⟨pcq, c1, hok, hn, ht⟩ := (ih c).1 ps hp
          obtain ⟨er, hce⟩ := compileExpr_err_of ps.1 pred hres
          exact ⟨er, by simp only [compile, hok, hn, hce]⟩
  | aggregate p keys aggs ih =>
    intro c
    constructor
    · intro s hs
      simp only [outSchema] at hs
      cases hp : outSchema p with
      | none => rw [hp] at hs; cases hs
      | some ps =>
        obtain ⟨ns, ts⟩ := ps
        simp only [hp] at hs
        cases hr : resolveAll ns ts keys with
        | error e => rw [hr] at hs; cases hs
        | ok kts =>
          rw [hr] at hs
          cases ha : compileAggs ns ts aggs with
          | error e => rw [ha] at hs; cases hs
          | ok items =>
            rw [ha] at hs
            cases hs
            obtain ⟨pcq, c1, hok, hn, ht⟩ := (ih c).1 (ns, ts) hp
            exact ⟨{ sql := "SELECT "
                       ++ joinSep ", " (keys.map quoteIdent ++ items.map Prod.fst)
                       ++ " FROM (" ++ pcq.sql ++ ") AS t" ++ toString c1
                       ++ (if keys.isEmpty then ""
                           else " GROUP BY " ++ joinSep ", " (keys.map quoteIdent)),
                     names := keys ++ aggs.map Prod.fst,
                     types := kts ++ items.map Prod.snd }, c1 + 1,
              by simp only [compile, hok, hn, ht, hr, ha], rfl, rfl⟩
    · intro hnone
      simp only [outSchema] at hnone
      cases hp : outSchema p with
      | none =>
        obtain ⟨er, herr⟩ := (ih c).2 hp
        exact ⟨er, by simp only [compile, herr]⟩
      | some ps =>
        obtain ⟨ns, ts⟩ := ps
        simp only [hp] at hnone
        obtain ⟨pcq, c1, hok, hn, ht⟩ := (ih c).1 (ns, ts) hp
        cases hr : resolveAll ns ts keys with
        | error e =>
          exact ⟨e, by simp only [compile, hok, hn, ht, hr]⟩
        | ok kts =>
          rw [hr] at hnone
          cases ha : compileAggs ns ts aggs with
          | ok items => rw [ha] at hnone; cases hnone
          | error e =>
            exact ⟨e, by simp only [compile, hok, hn, ht, hr, ha]⟩
  | sort p keys ih =>
    intro c
    constructor
    · intro s hs
      simp only [outSchema] at hs
      cases hp : outSchema p with
      | none => rw [hp] at hs; cases hs
      | some ps =>
        simp only [hp] at hs
        cases hres : keys.all (keyResolves ps.1) with
        | false => rw [hres] at hs; cases hs
        | true =>
          rw [hres] at hs
          simp only [if_true] at hs
          cases hs
          obtain ⟨pcq, c1, hok, hn, ht⟩ := (ih c).1 s hp
          obtain ⟨ks, hks⟩ := compileSortKeys_ok_of s.1 keys hres
          exact ⟨{ pcq with sql := pcq.sql ++ " ORDER BY " ++ joinSep ", " ks }, c1,
            by simp [compile, hok, hn, hks], hn, ht⟩
    · intro hnone
      simp only [outSchema] at hnone
      cases hp : outSchema p with
      | none =>
        obtain ⟨er, herr⟩ := (ih c).2 hp
        exact ⟨er, by simp only [compile, herr]⟩
      | some ps =>
        simp only [hp] at hnone
        cases hres : keys.all (keyResolves ps.1) with
        | true => rw [hres] at hnone; simp at hnone
        | false =>
          obtain ⟨pcq, c1, hok, hn, ht⟩ := (ih c).1 ps hp
          obtain ⟨er, hks⟩ := compileSortKeys_err_of ps.1 keys hres
          exact ⟨er, by simp only [compile, hok, hn, hks]⟩
  | limit p n off ih =>
    intro c
    constructor
    · intro s hs
      simp only [outSchema] at hs
      obtain ⟨pcq, c1, hok, hn, ht⟩ := (ih c).1 s hs
      cases hcl : carriesLimit p with
      | true =>
        exact ⟨{ pcq with
                 sql := "SELECT * FROM (" ++ pcq.sql ++ ") AS t" ++ toString c1
                   ++ limitClause n off }, c1 + 1,
          by simp [compile, hok, hcl], hn, ht⟩
      | false =>
        exact ⟨{ pcq with sql := pcq.sql ++ limitClause n off }, c1,
          by simp [compile, hok, hcl], hn, ht⟩
    · intro hnone
      simp only [outSchema] at hnone
      obtain ⟨er, herr⟩ := (ih c).2 hnone
      exact ⟨er, by simp only [compile, herr]⟩
  | setop kind a b iha ihb =>
    intro c
    constructor
    · intro s hs
      simp only [outSchema] at hs
      cases ha : outSchema a with
      | none => rw [ha] at hs; cases hs
      | some sa =>
        simp only [ha] at hs
        cases hb : outSchema b with
        | none => rw [hb] at hs; cases hs
        | some sb =>
          rw [hb] at hs
          cases hs
          obtain ⟨acq, c1, hok1, hn1, ht1⟩ := (iha c).1 s ha
          obtain ⟨bcq, c2, hok2, hn2, ht2⟩ := (ihb c1).1 sb hb
          exact ⟨{ sql := "(" ++ acq.sql ++ ") " ++ setKindStr kind ++ " (" ++ bcq.sql ++ ")",
                   names := acq.names, types := acq.types }, c2,
            by simp [compile, hok1, hok2], hn1, ht1⟩
    · intro hnone
      simp only [outSchema] at hnone
      cases ha : outSchema a with
      | none =>
        obtain ⟨er, herr⟩ := (iha c).2 ha
        exact ⟨er, by simp only [compile, herr]⟩
      | some sa =>
        simp only [ha] at hnone
        cases hb : outSchema b with
        | some sb => rw [hb] at hnone; cases hnone
        | none =>
          obtain ⟨acq, c1, hok1, hn1, ht1⟩ := (iha c).1 sa ha
          obtain ⟨er, herr⟩ := (ihb c1).2 hb
          exact ⟨er, by simp only [compile, hok1, herr]⟩

/-- C6: a tree containing a column reference that does not trace to an
ancestor Leaf-Table column or a Projection/Aggregate alias makes `compile`
fail with CompileError(UnknownColumn) synchronously, and the end-to-end
query run reports that compile error having issued zero HTTP requests —
the error is never deferred to the remote server. -/
theorem unresolved_column_fails_before_network (t : Node) (seed : Nat)
    (h : hasUnresolvedRef t = true) :
    ∃ name, compile t seed = .error (.unknownColumn name) ∧
      ∀ resps, runQuery t seed resps = (.error (.compileErr (.unknownColumn name)), 0) := by
  have hnone : outSchema t = none := by
    unfold hasUnresolvedRef at h
    cases houts : outSchema t with
    | none => rfl
    | some s => rw [houts] at h; simp at h
  obtain ⟨er, herr⟩ := (compile_matches_outSchema t seed).2 hnone
  obtain ⟨name, hname⟩ := compileError_eq er
  subst hname
  refine ⟨name, herr, fun resps => ?_⟩
  simp only [runQuery, herr]

/-- Witness for C6: a filter over a column absent from the leaf table's
schema compiles to UnknownColumn and the run makes zero HTTP requests. -/
theorem unresolved_column_fails_before_network_witness :
    compile (.filter (.table "t" [("a", .integer)]) (.col "missing")) 0
        = .error (.unknownColumn "missing") ∧
      runQuery (.filter (.table "t" [("a", .integer)]) (.col "missing")) 0 []
        = (.error (.compileErr (.unknownColumn "missing")), 0) := by
  obtain ⟨name, h1, h2⟩ :=
    unresolved_column_fails_before_network
      (.filter (.table "t" [("a", .integer)]) (.col "missing")) 0 rfl
  have h5 := h1
  rw [show compile (.filter (.table "t" [("a", .integer)]) (.col "missing")) 0
      = (Except.error (CompileError.unknownColumn "missing")
          : Except CompileError (CompiledQuery × Nat)) from rfl] at h5
  injection h5 with h6
  injection h6 with h7
  subst h7
  exact ⟨h1, h2 []⟩

/-- C9 counterexample: a tree merely *containing* a Limit(·, 1, ·) node is
not bounded by it: the union-all of two one-row subqueries contains a
Limit node with n = 1, compiles, and an honest server evaluating it
returns a two-row MaterializedTable through `executeFrom` — more than 1
row. -/
theorem limit_containing_counterexample :
    containsLimitWith 1 unionOfLimits = true ∧
    compile unionOfLimits 0 = .ok (cqUnion, 0) ∧
    eval envThree unionOfLimits = rowsTwo ∧
    executeFrom cqUnion [.ok ⟨cqUnion.names, encodeRows rowsTwo, none⟩] = .ok rowsTwo ∧
    rowsTwo.length = 2 ∧ ¬(rowsTwo.length ≤ 1) :=
  ⟨rfl, rfl, rfl, rfl, rfl, by decide⟩

/-- The rendered LIMIT clause keeps its row count visible in the SQL. -/
lemma containsSub_limitClause (x : String) (k : Nat) (off : Option Nat) :
    containsSub ("LIMIT " ++ toString k) (x ++ limitClause k off) := by
  refine ⟨x ++ " ", (match off with | none => "" | some o => " OFFSET " ++ toString o), ?_⟩
  simp only [limitClause]
  rw [show (" LIMIT " : String) = " " ++ "LIMIT " from rfl]
  simp only [String.append_assoc]

/-- C9 amended: a Limit node bounds the rows of the query it is the root
of: the evaluated result of Limit(p, n, offset) — the rows a correct
server returns, hence the MaterializedTable — has at most n rows; and when
a Limit node's child itself carries a LIMIT, compilation wraps the child
in a subquery and the inner limit stays in the child's SQL, never
overwritten. -/
theorem limit_root_bounds_and_inner_preserved :
    (∀ env p n off, (eval env (.limit p n off)).length ≤ n) ∧
    (∀ q k o n off c ccq c1,
      compile (.limit q k o) c = .ok (ccq, c1) →
      compile (.limit (.limit q k o) n off) c
        = .ok ({ ccq with
                 sql := "SELECT * FROM (" ++ ccq.sql ++ ") AS t" ++ toString c1
                   ++ limitClause n off }, c1 + 1) ∧
      containsSub ("LIMIT " ++ toString k) ccq.sql) := by
  constructor
  · intro env p n off
    simp only [eval]
    exact List.length_take_le _ _
  · intro q k o n off c ccq c1 hok
    constructor
    · rw [show compile (Node.limit (Node.limit q k o) n off) c
          = (match compile (Node.limit q k o) c with
             | .error e => .error e
             | .ok (pcq, c1) =>
               if carriesLimit (Node.limit q k o) then
                 .ok ({ pcq with
                        sql := "SELECT * FROM (" ++ pcq.sql ++ ") AS t" ++ toString c1
                          ++ limitClause n off }, c1 + 1)
               else .ok ({ pcq with sql := pcq.sql ++ limitClause n off }, c1)) from rfl]
      rw [hok]
      rfl
    · simp only [compile] at hok
      cases h1 : compile q c with
      | error e => simp [h1] at hok
      | ok pc =>
        obtain ⟨qcq, cq1⟩ := pc
        simp only [h1] at hok
        cases hcl : carriesLimit q with
        | true =>
          simp only [hcl, if_true] at hok
          cases hok
          exact containsSub_limitClause _ k o
        | false =>
          simp only [hcl, if_false] at hok
          cases hok
          exact containsSub_limitClause _ k o

/-- Witness for C9 (amended): a double limit over a leaf table compiles
with the inner LIMIT 3 preserved inside a wrapped subquery and the outer
LIMIT 5 OFFSET 1 appended outside. -/
theorem limit_root_bounds_and_inner_preserved_witness :
    compile (.limit (.limit (.table "t" [("a", .integer)]) 3 none) 5 (some 1)) 0
      = .ok ({ sql := "SELECT * FROM (SELECT * FROM \"t\" LIMIT 3) AS t0 LIMIT 5 OFFSET 1",
               names := ["a"], types := [SqlType.integer] }, 1) ∧
    containsSub ("LIMIT " ++ toString 3) "SELECT * FROM \"t\" LIMIT 3" := by
  have h := limit_root_bounds_and_inner_preserved.2
    (.table "t" [("a", .integer)]) 3 none 5 (some 1) 0
    { sql := "SELECT * FROM \"t\" LIMIT 3", names := ["a"], types := [SqlType.integer] } 0
    rfl
  exact ⟨h.1, h.2⟩

/-- The find of an existing key succeeds and returns that key's entry. -/
lemma find_key_of_mem (l : List (String × List (String × SqlType))) (nm : String)
    (h : nm ∈ l.map Prod.fst) :
    ∃ p, l.find? (fun q => q.1 = nm) = some p ∧ p.1 = nm := by
  induction l with
  | nil => simp at h
  | cons x l ih =>
    by_cases hx : x.1 = nm
    · exact ⟨x, by simp [List.find?, hx], hx⟩
    · have h2 : nm ∈ l.map Prod.fst := by
        rcases List.mem_cons.mp h with h1 | h1
        · exact absurd h1.symm hx
        · exact h1
      obtain ⟨p, hp, hpn⟩ := ih h2
      exact ⟨p, by simp [List.find?, hx, hp], hpn⟩

/-- C10: the connection entry point takes the full database URL as one
string — base URL and database name are recovered from it, not passed
separately — and the resulting connection's `list_tables` returns the
remote catalog's table names while its `tables` accessor exposes a
Leaf-Table handle for each listed name; the README's example URL splits
into its base URL and the database name `legislators`. -/
theorem connect_single_url_api (url : String)
    (cat : String → String → List (String × List (String × SqlType))) :
    (connect url cat).list_tables = (cat (splitUrl url).1 (splitUrl url).2).map Prod.fst ∧
    (∀ nm, nm ∈ (connect url cat).list_tables →
      ∃ sch, (connect url cat).tables nm = some (.table nm sch)) ∧
    splitUrl "https://congress-legislators.datasettes.com/legislators"
      = ("https://congress-legislators.datasettes.com", "legislators") := by
  refine ⟨rfl, ?_, by decide⟩
  intro nm hmem
  have hmem2 : nm ∈ (connect url cat).schemas.map Prod.fst := hmem
  obtain ⟨p, hp, hpn⟩ := find_key_of_mem (connect url cat).schemas nm hmem2
  exact ⟨p.2, by simp [Connection.tables, hp]⟩

/-- Witness for C10: connecting to the README's URL against a one-table
catalog lists that table and exposes a handle for it by name. -/
theorem connect_single_url_api_witness :
    (connect "https://scotrail.datasette.io/scotrail"
        (fun _ _ => [("announcements", [("Transcription", SqlType.text)])])).list_tables
      = ["announcements"] ∧
    (connect "https://scotrail.datasette.io/scotrail"
        (fun _ _ => [("announcements", [("Transcription", SqlType.text)])])).tables
        "announcements"
      = some (.table "announcements" [("Transcription", SqlType.text)]) := by
  obtain ⟨sch, hsch⟩ :=
    (connect_single_url_api "https://scotrail.datasette.io/scotrail"
      (fun _ _ => [("announcements", [("Transcription", SqlType.text)])])).2.1
      "announcements" (List.mem_singleton.mpr rfl)
  have h2 := hsch
  rw [show (connect "https://scotrail.datasette.io/scotrail"
        (fun _ _ => [("announcements", [("Transcription", SqlType.text)])])).tables
        "announcements"
      = some (Node.table "announcements" [("Transcription", SqlType.text)]) from rfl] at h2
  injection h2 with h3
  injection h3 with h4 h5
  subst h5
  exact ⟨rfl, hsch⟩

end IbisDatasette
